import Mathlib

/-!
Verification of the hdmx table sanitizer (hdmx.cc) of the OTS font sanitizer.

The definitions below are a shallow embedding of `OpenTypeHDMX::Parse`,
`OpenTypeHDMX::ShouldSerialize`, `OpenTypeHDMX::Serialize`, `ots_hdmx_reuse` and
`ots_hdmx_free`. Byte buffers are lists of naturals (each entry a byte of the
`uint8_t*` input); machine integers are `Nat`/`Int` with the wire ranges made
explicit; fallible reads return `Option`.
-/

/-- Outcome of a table-level validation decision: the sanitizer's two-tier
failure model (`Error` vs `Drop`) plus success. -/
inductive Outcome where
  | success
  | drop
  | error
deriving DecidableEq

/-- The `head` prerequisite table, restricted to the field hdmx consults. -/
structure HeadTable where
  flags : Nat
deriving DecidableEq

/-- The `maxp` prerequisite table, restricted to the field hdmx consults. -/
structure MaxpTable where
  num_glyphs : Nat
deriving DecidableEq

/-- A Font's table slots, restricted to what hdmx.cc touches: the `head` and
`maxp` prerequisites and whether a `glyf` table is present. -/
structure Font where
  head : Option HeadTable
  maxp : Option MaxpTable
  glyf : Bool
deriving DecidableEq

/-- `OpenTypeHDMXDeviceRecord` from hdmx.h: one pixel size's device record. -/
structure OpenTypeHDMXDeviceRecord where
  pixel_size : Nat
  max_width : Nat
  widths : List Nat
deriving DecidableEq

/-- `OpenTypeHDMX` member state: `version` (u16), `size_device_record` (i32),
`pad_len` (i32, derived), and the decoded records. -/
structure OpenTypeHDMX where
  version : Nat
  size_device_record : Int
  pad_len : Int
  records : List OpenTypeHDMXDeviceRecord
deriving DecidableEq

/-- Modelled from the spec: the Bounded Reader's `ReadU8` (the `Buffer` class is
not among the given sources) — consume one byte or fail cleanly. -/
def readU8 : List Nat → Option (Nat × List Nat)
  | [] => none
  | b :: rest => some (b, rest)

/-- Modelled from the spec: the Bounded Reader's `ReadU16` — big-endian, fails
without consuming when fewer than two bytes remain. -/
def readU16 : List Nat → Option (Nat × List Nat)
  | b0 :: b1 :: rest => some (b0 * 256 + b1, rest)
  | _ => none

/-- Modelled from the spec: the Bounded Reader's `ReadU32` — big-endian. -/
def readU32 : List Nat → Option (Nat × List Nat)
  | b0 :: b1 :: b2 :: b3 :: rest =>
      some (((b0 * 256 + b1) * 256 + b2) * 256 + b3, rest)
  | _ => none

/-- Two's-complement reinterpretation of an unsigned 16-bit value. -/
def toS16 (u : Nat) : Int :=
  if u < 32768 then (u : Int) else (u : Int) - 65536

/-- Two's-complement reinterpretation of an unsigned 32-bit value. -/
def toS32 (u : Nat) : Int :=
  if u < 2147483648 then (u : Int) else (u : Int) - 4294967296

/-- Modelled from the spec: the Bounded Reader's `ReadS16`. -/
def readS16 (l : List Nat) : Option (Int × List Nat) :=
  match readU16 l with
  | none => none
  | some (u, rest) => some (toS16 u, rest)

/-- Modelled from the spec: the Bounded Reader's `ReadS32`. -/
def readS32 (l : List Nat) : Option (Int × List Nat) :=
  match readU32 l with
  | none => none
  | some (u, rest) => some (toS32 u, rest)

/-- Modelled from the spec: the Bounded Reader's `Skip` — advance `n` bytes only
if at least `n` remain, otherwise fail without advancing. -/
def skip (n : Nat) (l : List Nat) : Option (List Nat) :=
  if n ≤ l.length then some (l.drop n) else none

/-- The widths loop of `OpenTypeHDMX::Parse`: read exactly `n` width bytes. -/
def readWidths : Nat → List Nat → Option (List Nat × List Nat)
  | 0, l => some ([], l)
  | n + 1, l =>
      match readU8 l with
      | none => none
      | some (w, l1) =>
          match readWidths n l1 with
          | none => none
          | some (ws, l2) => some (w :: ws, l2)

/-- The record loop of `OpenTypeHDMX::Parse` (hdmx.cc lines 49-79): per record
read `pixel_size` and `max_width`, check sorting against the previous record's
pixel size (skipped for the first record), read `num_glyphs` widths, skip the
padding, and push the record. On failure the records pushed so far are kept,
as `this->records` is in the C++ member state. -/
def parseRecords (ng pad : Nat) :
    Nat → Bool → Nat → List OpenTypeHDMXDeviceRecord → List Nat →
      Outcome × List OpenTypeHDMXDeviceRecord
  | 0, _, _, acc, _ => (Outcome.success, acc)
  | n + 1, isFirst, last, acc, l =>
      match readU8 l with
      | none => (Outcome.error, acc)
      | some (ps, l1) =>
          match readU8 l1 with
          | none => (Outcome.error, acc)
          | some (mw, l2) =>
              if isFirst = false ∧ ps ≤ last then (Outcome.drop, acc)
              else
                match readWidths ng l2 with
                | none => (Outcome.error, acc)
                | some (ws, l3) =>
                    match (if 0 < pad then skip pad l3 else some l3) with
                    | none => (Outcome.error, acc)
                    | some l4 =>
                        parseRecords ng pad n false ps (acc ++ [⟨ps, mw, ws⟩]) l4

/-- The member state of a freshly constructed `OpenTypeHDMX` (scalar fields
modelled as zero, records empty). -/
def emptyHDMX : OpenTypeHDMX :=
  { version := 0, size_device_record := 0, pad_len := 0, records := [] }

/-- `OpenTypeHDMX::Parse` (hdmx.cc lines 14-82). Returns the outcome together
with the member state of the table object after the call. -/
def OpenTypeHDMX.Parse (font : Font) (data : List Nat) : Outcome × OpenTypeHDMX :=
  match font.head, font.maxp with
  | none, _ => (Outcome.error, emptyHDMX)
  | some _, none => (Outcome.error, emptyHDMX)
  | some head, some maxp =>
    if head.flags &&& 0x14 = 0 then (Outcome.drop, emptyHDMX)
    else
      match readU16 data with
      | none => (Outcome.error, emptyHDMX)
      | some (version, l1) =>
        match readS16 l1 with
        | none => (Outcome.error, { emptyHDMX with version := version })
        | some (num_recs, l2) =>
          match readS32 l2 with
          | none => (Outcome.error, { emptyHDMX with version := version })
          | some (sdr, l3) =>
            let t1 : OpenTypeHDMX :=
              { version := version, size_device_record := sdr,
                pad_len := 0, records := [] }
            if version ≠ 0 then (Outcome.drop, t1)
            else if num_recs ≤ 0 then (Outcome.drop, t1)
            else
              let actual_size_device_record : Int := (maxp.num_glyphs : Int) + 2
              if sdr < actual_size_device_record then (Outcome.drop, t1)
              else
                let pad : Int := sdr - actual_size_device_record
                let t2 : OpenTypeHDMX := { t1 with pad_len := pad }
                if 3 < pad then (Outcome.error, t2)
                else
                  let r := parseRecords maxp.num_glyphs pad.toNat num_recs.toNat
                    true 0 [] l3
                  (r.1, { t2 with records := r.2 })

/-- Modelled from the spec: the Bounded Writer's `WriteU16` (the `OTSStream`
class is not among the given sources) — big-endian bytes of a u16. -/
def u16Bytes (v : Nat) : List Nat :=
  [v / 256 % 256, v % 256]

/-- Modelled from the spec: the Bounded Writer's `WriteU32` — big-endian. -/
def u32Bytes (v : Nat) : List Nat :=
  [v / 16777216 % 256, v / 65536 % 256, v / 256 % 256, v % 256]

/-- Modelled from the spec: the Bounded Writer's `WriteS16` — two's complement,
big-endian. -/
def s16Bytes (v : Int) : List Nat :=
  u16Bytes (v % 65536).toNat

/-- Modelled from the spec: the Bounded Writer's `WriteS32` — two's complement,
big-endian. -/
def s32Bytes (v : Int) : List Nat :=
  u32Bytes (v % 4294967296).toNat

/-- The byte run `Serialize` emits for one device record followed by `pad`
zero padding bytes. -/
def encodeRec (pad : Nat) (r : OpenTypeHDMXDeviceRecord) : List Nat :=
  r.pixel_size :: r.max_width :: (r.widths ++ List.replicate pad 0)

/-- The byte run `Serialize` emits for a record sequence. -/
def encodeRecs (pad : Nat) (rs : List OpenTypeHDMXDeviceRecord) : List Nat :=
  (rs.map (encodeRec pad)).flatten

/-- `OpenTypeHDMX::Serialize` (hdmx.cc lines 89-113) over an infallible sink:
`none` exactly when the record count exceeds the signed-16-bit maximum,
otherwise the emitted byte stream. -/
def OpenTypeHDMX.Serialize (t : OpenTypeHDMX) : Option (List Nat) :=
  if 32767 < t.records.length then none
  else
    some (u16Bytes t.version ++ s16Bytes (t.records.length : Int) ++
      s32Bytes t.size_device_record ++
      (t.records.map (fun r =>
        r.pixel_size :: r.max_width :: r.widths ++
          (if 0 < t.pad_len then List.replicate t.pad_len.toNat 0 else []))).flatten)

/-- Modelled from the spec: `Table::ShouldSerialize` (base class, not among the
given sources): "Default precondition (absent override) is simply 'parsed
successfully'." -/
def tableShouldSerialize (parsedOk : Bool) : Bool :=
  parsedOk

/-- `OpenTypeHDMX::ShouldSerialize` (hdmx.cc lines 84-87): the base-class check
and `GetFont()->glyf != NULL`. -/
def OpenTypeHDMX.ShouldSerialize (parsedOk : Bool) (font : Font) : Bool :=
  tableShouldSerialize parsedOk && font.glyf

/-- Modelled from the spec: the font-level driver — "surviving tables later
answer ShouldSerialize and, if true, Serialize into the output stream". The
hdmx contribution to the output is `none` whenever the table is not emitted. -/
def hdmxPass (font : Font) (data : List Nat) : Option (List Nat) :=
  let r := OpenTypeHDMX.Parse font data
  if OpenTypeHDMX.ShouldSerialize (decide (r.1 = Outcome.success)) font then
    r.2.Serialize
  else none

/-- A Font's hdmx slot as `ots_hdmx_reuse`/`ots_hdmx_free` see it: an optional
handle to a heap-allocated table instance, plus the `hdmx_reused` flag. -/
structure FontH where
  hdmx : Option Nat
  hdmx_reused : Bool
deriving DecidableEq

/-- The set of live (allocated, not deleted) hdmx table instances. -/
structure Heap where
  live : List Nat
deriving DecidableEq

/-- `ots_hdmx_reuse` (hdmx.cc lines 123-126): adopt the other Font's instance
by handle and set the `hdmx_reused` flag. -/
def ots_hdmx_reuse (_font other : FontH) : FontH :=
  { hdmx := other.hdmx, hdmx_reused := true }

/-- `ots_hdmx_free` (hdmx.cc lines 128-130): `delete font->hdmx` — the pointed-to
instance is removed from the live heap (deleting a null handle is a no-op). -/
def ots_hdmx_free (heap : Heap) (font : FontH) : Heap :=
  match font.hdmx with
  | none => heap
  | some p => { live := heap.live.filter (fun q => q != p) }

/-- Modelled from the spec: the Font teardown path (not among the given
sources) — "manual pointer assignment plus a 'reused' flag to suppress double
free": the per-table free is invoked only when the table was not adopted via
Reuse. -/
def fontRelease (heap : Heap) (font : FontH) : Heap :=
  if font.hdmx_reused then heap else ots_hdmx_free heap font

/-- Decidable form of the sorted-records invariant as the record loop tracks
it: every record's `pixel_size` strictly exceeds `last`, the previous record's
pixel size, the check being skipped for the very first record. -/
def sortedFrom : Bool → Nat → List OpenTypeHDMXDeviceRecord → Bool
  | _, _, [] => true
  | isFirst, last, r :: rs =>
      (isFirst || decide (last < r.pixel_size)) && sortedFrom false r.pixel_size rs

/-- Every entry of the buffer is a byte, as the `uint8_t*` input type ensures. -/
abbrev ByteList (l : List Nat) : Prop :=
  ∀ b ∈ l, b < 256

theorem readU16_u16Bytes (v : Nat) (hv : v < 65536) (rest : List Nat) :
    readU16 (u16Bytes v ++ rest) = some (v, rest) := by
  simp only [u16Bytes, readU16, List.cons_append, List.nil_append,
    Option.some.injEq, Prod.mk.injEq]
  exact ⟨by omega, trivial⟩

theorem readU32_u32Bytes (v : Nat) (hv : v < 4294967296) (rest : List Nat) :
    readU32 (u32Bytes v ++ rest) = some (v, rest) := by
  simp only [u32Bytes, readU32, List.cons_append, List.nil_append,
    Option.some.injEq, Prod.mk.injEq]
  exact ⟨by omega, trivial⟩

theorem readS16_s16Bytes (v : Int) (h0 : 0 ≤ v) (hv : v < 32768) (rest : List Nat) :
    readS16 (s16Bytes v ++ rest) = some (v, rest) := by
  have hmod : v % 65536 = v := Int.emod_eq_of_lt h0 (by omega)
  have hlt : (v % 65536).toNat < 65536 := by omega
  simp only [s16Bytes, readS16, readU16_u16Bytes _ hlt, toS16]
  rw [if_pos (by omega : (v % 65536).toNat < 32768)]
  simp only [Option.some.injEq, Prod.mk.injEq]
  exact ⟨by omega, trivial⟩

theorem readS32_s32Bytes (v : Int) (h0 : 0 ≤ v) (hv : v < 2147483648) (rest : List Nat) :
    readS32 (s32Bytes v ++ rest) = some (v, rest) := by
  have hmod : v % 4294967296 = v := Int.emod_eq_of_lt h0 (by omega)
  have hlt : (v % 4294967296).toNat < 4294967296 := by omega
  simp only [s32Bytes, readS32, readU32_u32Bytes _ hlt, toS32]
  rw [if_pos (by omega : (v % 4294967296).toNat < 2147483648)]
  simp only [Option.some.injEq, Prod.mk.injEq]
  exact ⟨by omega, trivial⟩

theorem readWidths_append (ws : List Nat) (rest : List Nat) :
    readWidths ws.length (ws ++ rest) = some (ws, rest) := by
  induction ws with
  | nil => rfl
  | cons w ws ih =>
      simp only [List.length_cons, List.cons_append, readWidths, readU8, ih]

theorem readWidths_inv (n : Nat) :
    ∀ l ws rest, readWidths n l = some (ws, rest) →
      ws.length = n ∧ l = ws ++ rest := by
  induction n with
  | zero =>
      intro l ws rest h
      simp only [readWidths, Option.some.injEq, Prod.mk.injEq] at h
      obtain ⟨h1, h2⟩ := h
      subst h1; subst h2
      exact ⟨rfl, rfl⟩
  | succ n ih =>
      intro l ws rest h
      match l with
      | [] => simp [readWidths, readU8] at h
      | b :: l1 =>
          simp only [readWidths, readU8] at h
          cases hr : readWidths n l1 with
          | none => rw [hr] at h; simp at h
          | some p =>
              obtain ⟨ws1, rest1⟩ := p
              rw [hr] at h
              simp only [Option.some.injEq, Prod.mk.injEq] at h
              obtain ⟨h1, h2⟩ := h
              obtain ⟨hl, he⟩ := ih l1 ws1 rest1 hr
              subst h1
              subst h2
              constructor
              · simp [hl]
              · simp [he]

theorem skip_some (n : Nat) (l l2 : List Nat) (h : skip n l = some l2) :
    l2 = l.drop n := by
  simp only [skip] at h
  by_cases hn : n ≤ l.length
  · rw [if_pos hn] at h
    simpa using h.symm
  · rw [if_neg hn] at h
    simp at h

theorem skip_replicate (n x : Nat) (rest : List Nat) :
    skip n (List.replicate n x ++ rest) = some rest := by
  simp only [skip, List.length_append, List.length_replicate]
  rw [if_pos (by omega)]
  congr 1
  rw [List.drop_append_of_le_length (by simp)]
  simp

theorem ByteList.cons_inv (b : Nat) (l : List Nat) (h : ByteList (b :: l)) :
    b < 256 ∧ ByteList l := by
  exact ⟨h b (by simp), fun x hx => h x (by simp [hx])⟩

theorem readU16_inv (l : List Nat) (u : Nat) (rest : List Nat)
    (h : readU16 l = some (u, rest)) (hb : ByteList l) :
    u < 65536 ∧ ByteList rest := by
  match l with
  | [] => simp [readU16] at h
  | [b] => simp [readU16] at h
  | b0 :: b1 :: l2 =>
      simp only [readU16, Option.some.injEq, Prod.mk.injEq] at h
      obtain ⟨h1, h2⟩ := h
      subst h1; subst h2
      obtain ⟨hb0, hb1⟩ := hb.cons_inv b0 _
      obtain ⟨hb1v, hb2⟩ := hb1.cons_inv b1 _
      exact ⟨by omega, hb2⟩

theorem readU32_inv (l : List Nat) (u : Nat) (rest : List Nat)
    (h : readU32 l = some (u, rest)) (hb : ByteList l) :
    u < 4294967296 ∧ ByteList rest := by
  match l with
  | [] => simp [readU32] at h
  | [_] => simp [readU32] at h
  | [_, _] => simp [readU32] at h
  | [_, _, _] => simp [readU32] at h
  | b0 :: b1 :: b2 :: b3 :: l2 =>
      simp only [readU32, Option.some.injEq, Prod.mk.injEq] at h
      obtain ⟨h1, h2⟩ := h
      subst h1; subst h2
      obtain ⟨hb0, hr⟩ := hb.cons_inv b0 _
      obtain ⟨hb1, hr⟩ := hr.cons_inv b1 _
      obtain ⟨hb2, hr⟩ := hr.cons_inv b2 _
      obtain ⟨hb3, hr⟩ := hr.cons_inv b3 _
      exact ⟨by omega, hr⟩

theorem readS16_inv (l : List Nat) (v : Int) (rest : List Nat)
    (h : readS16 l = some (v, rest)) (hb : ByteList l) :
    -32768 ≤ v ∧ v < 32768 ∧ ByteList rest := by
  simp only [readS16] at h
  cases hu : readU16 l with
  | none => rw [hu] at h; simp at h
  | some p =>
      obtain ⟨u, rest1⟩ := p
      rw [hu] at h
      simp only [Option.some.injEq, Prod.mk.injEq] at h
      obtain ⟨h1, h2⟩ := h
      subst h1; subst h2
      obtain ⟨hu1, hu2⟩ := readU16_inv l u rest1 hu hb
      unfold toS16
      by_cases hc : u < 32768
      · rw [if_pos hc]
        refine ⟨by omega, by omega, hu2⟩
      · rw [if_neg hc]
        refine ⟨by omega, by omega, hu2⟩

theorem readS32_inv (l : List Nat) (v : Int) (rest : List Nat)
    (h : readS32 l = some (v, rest)) (hb : ByteList l) :
    -2147483648 ≤ v ∧ v < 2147483648 ∧ ByteList rest := by
  simp only [readS32] at h
  cases hu : readU32 l with
  | none => rw [hu] at h; simp at h
  | some p =>
      obtain ⟨u, rest1⟩ := p
      rw [hu] at h
      simp only [Option.some.injEq, Prod.mk.injEq] at h
      obtain ⟨h1, h2⟩ := h
      subst h1; subst h2
      obtain ⟨hu1, hu2⟩ := readU32_inv l u rest1 hu hb
      unfold toS32
      by_cases hc : u < 2147483648
      · rw [if_pos hc]
        refine ⟨by omega, by omega, hu2⟩
      · rw [if_neg hc]
        refine ⟨by omega, by omega, hu2⟩

theorem parseRecords_encodeRecs (ng pad : Nat) :
    ∀ (rs : List OpenTypeHDMXDeviceRecord) (isFirst : Bool) (last : Nat)
      (acc : List OpenTypeHDMXDeviceRecord),
      (∀ r ∈ rs, r.widths.length = ng) →
      sortedFrom isFirst last rs = true →
      parseRecords ng pad rs.length isFirst last acc (encodeRecs pad rs) =
        (Outcome.success, acc ++ rs) := by
  intro rs
  induction rs with
  | nil =>
      intro isFirst last acc _ _
      simp [parseRecords, encodeRecs]
  | cons r tl ih =>
      intro isFirst last acc hw hs
      simp only [sortedFrom, Bool.and_eq_true, Bool.or_eq_true,
        decide_eq_true_eq] at hs
      obtain ⟨hs1, hs2⟩ := hs
      have hwr : r.widths.length = ng := hw r (by simp)
      simp only [List.length_cons, encodeRecs, List.map_cons, List.flatten_cons,
        encodeRec, List.cons_append, parseRecords, readU8]
      have hcond : ¬(isFirst = false ∧ r.pixel_size ≤ last) := by
        rcases hs1 with h | h
        · intro hc; rw [hc.1] at h; cases h
        · omega
      rw [if_neg hcond]
      have hwid : readWidths ng ((r.widths ++ List.replicate pad 0) ++
          (tl.map (encodeRec pad)).flatten) =
          some (r.widths, List.replicate pad 0 ++ (tl.map (encodeRec pad)).flatten) := by
        rw [List.append_assoc, ← hwr]
        exact readWidths_append r.widths _
      simp only [hwid]
      have hskip : (if 0 < pad then
          skip pad (List.replicate pad 0 ++ (tl.map (encodeRec pad)).flatten)
          else some (List.replicate pad 0 ++ (tl.map (encodeRec pad)).flatten)) =
          some ((tl.map (encodeRec pad)).flatten) := by
        by_cases hp : 0 < pad
        · rw [if_pos hp, skip_replicate]
        · rw [if_neg hp]
          have : pad = 0 := by omega
          simp [this]
      simp only [hskip]
      have := ih false r.pixel_size (acc ++ [⟨r.pixel_size, r.max_width, r.widths⟩])
        (fun x hx => hw x (by simp [hx])) hs2
      simp only [encodeRecs] at this
      rw [this]
      simp

theorem parseRecords_encodeRecs_unsorted (ng pad : Nat) :
    ∀ (rs : List OpenTypeHDMXDeviceRecord) (isFirst : Bool) (last : Nat)
      (acc : List OpenTypeHDMXDeviceRecord),
      (∀ r ∈ rs, r.widths.length = ng) →
      sortedFrom isFirst last rs = false →
      (parseRecords ng pad rs.length isFirst last acc (encodeRecs pad rs)).1 =
        Outcome.drop := by
  intro rs
  induction rs with
  | nil =>
      intro isFirst last acc _ hs
      simp [sortedFrom] at hs
  | cons r tl ih =>
      intro isFirst last acc hw hs
      simp only [sortedFrom, Bool.and_eq_false_iff, Bool.or_eq_false_iff] at hs
      have hwr : r.widths.length = ng := hw r (by simp)
      simp only [List.length_cons, encodeRecs, List.map_cons, List.flatten_cons,
        encodeRec, List.cons_append, parseRecords, readU8]
      by_cases hcond : isFirst = false ∧ r.pixel_size ≤ last
      · rw [if_pos hcond]
      · rw [if_neg hcond]
        have hs2 : sortedFrom false r.pixel_size tl = false := by
          rcases hs with ⟨h1, h2⟩ | h
          · exfalso
            apply hcond
            refine ⟨h1, ?_⟩
            simpa using h2
          · exact h
        have hwid : readWidths ng ((r.widths ++ List.replicate pad 0) ++
            (tl.map (encodeRec pad)).flatten) =
            some (r.widths, List.replicate pad 0 ++ (tl.map (encodeRec pad)).flatten) := by
          rw [List.append_assoc, ← hwr]
          exact readWidths_append r.widths _
        simp only [hwid]
        have hskip : (if 0 < pad then
            skip pad (List.replicate pad 0 ++ (tl.map (encodeRec pad)).flatten)
            else some (List.replicate pad 0 ++ (tl.map (encodeRec pad)).flatten)) =
            some ((tl.map (encodeRec pad)).flatten) := by
          by_cases hp : 0 < pad
          · rw [if_pos hp, skip_replicate]
          · rw [if_neg hp]
            have : pad = 0 := by omega
            simp [this]
        simp only [hskip]
        have := ih false r.pixel_size (acc ++ [⟨r.pixel_size, r.max_width, r.widths⟩])
          (fun x hx => hw x (by simp [hx])) hs2
        simpa only [encodeRecs] using this

theorem parseRecords_success_inv (ng pad : Nat) :
    ∀ (n : Nat) (isFirst : Bool) (last : Nat)
      (acc : List OpenTypeHDMXDeviceRecord) (l : List Nat)
      (recs : List OpenTypeHDMXDeviceRecord),
      parseRecords ng pad n isFirst last acc l = (Outcome.success, recs) →
      ∃ rs, recs = acc ++ rs ∧ rs.length = n ∧
        sortedFrom isFirst last rs = true ∧
        ∀ r ∈ rs, r.widths.length = ng := by
  intro n
  induction n with
  | zero =>
      intro isFirst last acc l recs h
      simp only [parseRecords, Prod.mk.injEq] at h
      exact ⟨[], by simp [h.2.symm], rfl, rfl, by simp⟩
  | succ n ih =>
      intro isFirst last acc l recs h
      simp only [parseRecords] at h
      cases h1 : readU8 l with
      | none => rw [h1] at h; simp at h
      | some p1 =>
          obtain ⟨ps, l1⟩ := p1
          rw [h1] at h
          simp only at h
          cases h2 : readU8 l1 with
          | none => rw [h2] at h; simp at h
          | some p2 =>
              obtain ⟨mw, l2⟩ := p2
              rw [h2] at h
              simp only at h
              by_cases hcond : isFirst = false ∧ ps ≤ last
              · rw [if_pos hcond] at h; simp at h
              · rw [if_neg hcond] at h
                cases h3 : readWidths ng l2 with
                | none => rw [h3] at h; simp at h
                | some p3 =>
                    obtain ⟨ws, l3⟩ := p3
                    rw [h3] at h
                    simp only at h
                    cases h4 : (if 0 < pad then skip pad l3 else some l3) with
                    | none => rw [h4] at h; simp at h
                    | some l4 =>
                        rw [h4] at h
                        simp only at h
                        obtain ⟨rs1, hrecs, hlen, hsort, hws⟩ :=
                          ih false ps (acc ++ [⟨ps, mw, ws⟩]) l4 recs h
                        refine ⟨⟨ps, mw, ws⟩ :: rs1, ?_, ?_, ?_, ?_⟩
                        · simp [hrecs]
                        · simp [hlen]
                        · simp only [sortedFrom, hsort, Bool.and_true]
                          rcases Bool.eq_false_or_eq_true isFirst with hf | hf
                          · simp [hf]
                          · have hlt : last < ps := by
                              by_contra hn
                              exact hcond ⟨hf, by omega⟩
                            simp [hlt]
                        · intro r hr
                          rcases List.mem_cons.mp hr with hr | hr
                          · subst hr
                            exact (readWidths_inv ng l2 ws l3 h3).1
                          · exact hws r hr

theorem sortedFrom_false_iff (rs : List OpenTypeHDMXDeviceRecord) :
    ∀ last, sortedFrom false last rs = true ↔
      (List.Chain' (fun a b => a.pixel_size < b.pixel_size) rs ∧
        ∀ r, rs.head? = some r → last < r.pixel_size) := by
  induction rs with
  | nil =>
      intro last
      simp [sortedFrom]
  | cons r tl ih =>
      intro last
      simp only [sortedFrom, Bool.and_eq_true, Bool.false_or, decide_eq_true_eq,
        ih r.pixel_size, List.head?_cons, Option.some.injEq]
      constructor
      · rintro ⟨h1, h2, h3⟩
        refine ⟨List.chain'_cons'.mpr ⟨?_, h2⟩, ?_⟩
        · intro y hy
          exact h3 y (by simpa using hy)
        · intro x hx
          subst hx
          exact h1
      · rintro ⟨hc, h2⟩
        obtain ⟨hh, htl⟩ := List.chain'_cons'.mp hc
        refine ⟨h2 r rfl, htl, ?_⟩
        intro x hx
        exact hh x (by simpa using hx)

theorem sortedFrom_true_iff (rs : List OpenTypeHDMXDeviceRecord) (last : Nat) :
    sortedFrom true last rs = true ↔
      List.Chain' (fun a b => a.pixel_size < b.pixel_size) rs := by
  cases rs with
  | nil => simp [sortedFrom]
  | cons r tl =>
      simp only [sortedFrom, Bool.true_or, Bool.true_and,
        sortedFrom_false_iff tl r.pixel_size]
      constructor
      · rintro ⟨hc, h2⟩
        refine List.chain'_cons'.mpr ⟨?_, hc⟩
        intro y hy
        exact h2 y (by simpa using hy)
      · intro hc
        obtain ⟨hh, htl⟩ := List.chain'_cons'.mp hc
        refine ⟨htl, ?_⟩
        intro x hx
        exact hh x (by simpa using hx)

theorem Parse_success_inv (font : Font) (data : List Nat) (t : OpenTypeHDMX)
    (h : OpenTypeHDMX.Parse font data = (Outcome.success, t)) :
    ∃ head maxp num_recs l1 l2 l3,
      font.head = some head ∧ font.maxp = some maxp ∧
      ¬head.flags &&& 0x14 = 0 ∧
      readU16 data = some (0, l1) ∧
      readS16 l1 = some (num_recs, l2) ∧ 0 < num_recs ∧
      readS32 l2 = some (t.size_device_record, l3) ∧
      t.version = 0 ∧
      (maxp.num_glyphs : Int) + 2 ≤ t.size_device_record ∧
      t.pad_len = t.size_device_record - ((maxp.num_glyphs : Int) + 2) ∧
      t.pad_len ≤ 3 ∧
      t.records.length = num_recs.toNat ∧
      sortedFrom true 0 t.records = true ∧
      (∀ r ∈ t.records, r.widths.length = maxp.num_glyphs) ∧
      parseRecords maxp.num_glyphs t.pad_len.toNat num_recs.toNat true 0 [] l3 =
        (Outcome.success, t.records) := by
  simp only [OpenTypeHDMX.Parse] at h
  cases hh : font.head with
  | none => rw [hh] at h; simp at h
  | some head =>
  rw [hh] at h
  cases hm : font.maxp with
  | none => rw [hm] at h; simp at h
  | some maxp =>
  rw [hm] at h
  simp only at h
  by_cases hf : head.flags &&& 0x14 = 0
  · rw [if_pos hf] at h; simp at h
  · rw [if_neg hf] at h
    cases h1 : readU16 data with
    | none => rw [h1] at h; simp at h
    | some p1 =>
    obtain ⟨version, l1⟩ := p1
    rw [h1] at h
    simp only at h
    cases h2 : readS16 l1 with
    | none => rw [h2] at h; simp at h
    | some p2 =>
    obtain ⟨num_recs, l2⟩ := p2
    rw [h2] at h
    simp only at h
    cases h3 : readS32 l2 with
    | none => rw [h3] at h; simp at h
    | some p3 =>
    obtain ⟨sdr, l3⟩ := p3
    rw [h3] at h
    simp only at h
    by_cases hv : version ≠ 0
    · rw [if_pos hv] at h; simp at h
    · rw [if_neg hv] at h
      have hv0 : version = 0 := by
        by_contra hc
        exact hv hc
      subst hv0
      by_cases hn : num_recs ≤ 0
      · rw [if_pos hn] at h; simp at h
      · rw [if_neg hn] at h
        by_cases hsz : sdr < (maxp.num_glyphs : Int) + 2
        · rw [if_pos hsz] at h; simp at h
        · rw [if_neg hsz] at h
          by_cases hp : 3 < sdr - ((maxp.num_glyphs : Int) + 2)
          · rw [if_pos hp] at h; simp at h
          · rw [if_neg hp] at h
            cases hr : parseRecords maxp.num_glyphs
                (sdr - ((maxp.num_glyphs : Int) + 2)).toNat num_recs.toNat
                true 0 [] l3 with
            | mk out recs =>
            rw [hr] at h
            simp only [Prod.mk.injEq] at h
            obtain ⟨hout, ht⟩ := h
            obtain ⟨rs, hrs, hlen, hsort, hws⟩ :=
              parseRecords_success_inv maxp.num_glyphs
                (sdr - ((maxp.num_glyphs : Int) + 2)).toNat num_recs.toNat
                true 0 [] l3 recs (by rw [hr, hout])
            simp only [List.nil_append] at hrs
            subst hrs
            subst ht
            refine ⟨head, maxp, num_recs, l1, l2, l3, rfl, rfl, hf, rfl, h2,
              by omega, h3, rfl, ?_, rfl, ?_, ?_, ?_, ?_, ?_⟩
            · show (maxp.num_glyphs : Int) + 2 ≤ sdr
              omega
            · show sdr - ((maxp.num_glyphs : Int) + 2) ≤ 3
              omega
            · exact hlen
            · exact hsort
            · exact hws
            · show parseRecords maxp.num_glyphs
                (sdr - ((maxp.num_glyphs : Int) + 2)).toNat num_recs.toNat
                true 0 [] l3 = (Outcome.success, recs)
              rw [hr, hout]

theorem Parse_success_bounds (font : Font) (data : List Nat) (t : OpenTypeHDMX)
    (hb : ByteList data)
    (h : OpenTypeHDMX.Parse font data = (Outcome.success, t)) :
    1 ≤ t.records.length ∧ t.records.length ≤ 32767 ∧
      0 ≤ t.size_device_record ∧ t.size_device_record < 2147483648 := by
  obtain ⟨head, maxp, num_recs, l1, l2, l3, hh, hm, hf, h1, h2, hn, h3, hv,
    hsz, hpdef, hple, hlen, hsort, hws, hpr⟩ := Parse_success_inv font data t h
  obtain ⟨hu1, hb1⟩ := readU16_inv data 0 l1 h1 hb
  obtain ⟨hn1, hn2, hb2⟩ := readS16_inv l1 num_recs l2 h2 hb1
  obtain ⟨hs1, hs2, hb3⟩ := readS32_inv l2 t.size_device_record l3 h3 hb2
  refine ⟨?_, ?_, by omega, hs2⟩
  · omega
  · omega

theorem Parse_encode (font : Font) (head : HeadTable) (maxp : MaxpTable)
    (rs : List OpenTypeHDMXDeviceRecord) (pad : Nat) (sdr : Int)
    (hh : font.head = some head) (hm : font.maxp = some maxp)
    (hf : ¬head.flags &&& 0x14 = 0)
    (hlen1 : 0 < rs.length) (hlen2 : rs.length < 32768)
    (hw : ∀ r ∈ rs, r.widths.length = maxp.num_glyphs)
    (hsorted : sortedFrom true 0 rs = true)
    (hsdr : sdr = (maxp.num_glyphs : Int) + 2 + (pad : Int))
    (hpad : pad ≤ 3) (h31 : sdr < 2147483648) :
    OpenTypeHDMX.Parse font
        (u16Bytes 0 ++ (s16Bytes (rs.length : Int) ++ (s32Bytes sdr ++ encodeRecs pad rs))) =
      (Outcome.success,
        ⟨0, sdr, (pad : Int), rs⟩) := by
  simp only [OpenTypeHDMX.Parse, hh, hm]
  rw [if_neg hf]
  rw [readU16_u16Bytes 0 (by omega)]
  simp only
  rw [readS16_s16Bytes (rs.length : Int) (by omega) (by omega)]
  simp only
  rw [readS32_s32Bytes sdr (by omega) h31]
  simp only
  rw [if_neg (by omega : ¬(0 : Nat) ≠ 0)]
  rw [if_neg (by omega : ¬(rs.length : Int) ≤ 0)]
  rw [if_neg (by omega : ¬sdr < (maxp.num_glyphs : Int) + 2)]
  rw [if_neg (by omega : ¬(3 : Int) < sdr - ((maxp.num_glyphs : Int) + 2))]
  have htN : (sdr - ((maxp.num_glyphs : Int) + 2)).toNat = pad := by omega
  have hlN : ((rs.length : Int)).toNat = rs.length := by omega
  rw [htN, hlN]
  rw [parseRecords_encodeRecs maxp.num_glyphs pad rs true 0 [] hw hsorted]
  simp only [List.nil_append, Prod.mk.injEq, OpenTypeHDMX.mk.injEq]
  exact ⟨trivial, trivial, trivial, by omega, trivial⟩

theorem Parse_encode_unsorted (font : Font) (head : HeadTable) (maxp : MaxpTable)
    (rs : List OpenTypeHDMXDeviceRecord) (pad : Nat) (sdr : Int)
    (hh : font.head = some head) (hm : font.maxp = some maxp)
    (hf : ¬head.flags &&& 0x14 = 0)
    (hlen2 : rs.length < 32768)
    (hw : ∀ r ∈ rs, r.widths.length = maxp.num_glyphs)
    (hsorted : sortedFrom true 0 rs = false)
    (hsdr : sdr = (maxp.num_glyphs : Int) + 2 + (pad : Int))
    (hpad : pad ≤ 3) (h31 : sdr < 2147483648) :
    (OpenTypeHDMX.Parse font
        (u16Bytes 0 ++ (s16Bytes (rs.length : Int) ++ (s32Bytes sdr ++ encodeRecs pad rs)))).1 =
      Outcome.drop := by
  have hlen1 : 0 < rs.length := by
    cases rs with
    | nil => simp [sortedFrom] at hsorted
    | cons r tl => simp
  simp only [OpenTypeHDMX.Parse, hh, hm]
  rw [if_neg hf]
  rw [readU16_u16Bytes 0 (by omega)]
  simp only
  rw [readS16_s16Bytes (rs.length : Int) (by omega) (by omega)]
  simp only
  rw [readS32_s32Bytes sdr (by omega) h31]
  simp only
  rw [if_neg (by omega : ¬(0 : Nat) ≠ 0)]
  rw [if_neg (by omega : ¬(rs.length : Int) ≤ 0)]
  rw [if_neg (by omega : ¬sdr < (maxp.num_glyphs : Int) + 2)]
  rw [if_neg (by omega : ¬(3 : Int) < sdr - ((maxp.num_glyphs : Int) + 2))]
  have htN : (sdr - ((maxp.num_glyphs : Int) + 2)).toNat = pad := by omega
  have hlN : ((rs.length : Int)).toNat = rs.length := by omega
  rw [htN, hlN]
  exact parseRecords_encodeRecs_unsorted maxp.num_glyphs pad rs true 0 [] hw hsorted

theorem Serialize_eq_encode (t : OpenTypeHDMX) (hlen : t.records.length ≤ 32767) :
    t.Serialize = some (u16Bytes t.version ++ (s16Bytes (t.records.length : Int) ++
      (s32Bytes t.size_device_record ++ encodeRecs t.pad_len.toNat t.records))) := by
  have hbody : ∀ r : OpenTypeHDMXDeviceRecord,
      (r.pixel_size :: r.max_width :: r.widths ++
        (if 0 < t.pad_len then List.replicate t.pad_len.toNat 0 else [])) =
      encodeRec t.pad_len.toNat r := by
    intro r
    by_cases hp : 0 < t.pad_len
    · rw [if_pos hp]; rfl
    · rw [if_neg hp]
      have : t.pad_len.toNat = 0 := by omega
      simp [encodeRec, this]
  simp only [OpenTypeHDMX.Serialize]
  rw [if_neg (by omega)]
  simp only [hbody, encodeRecs, List.append_assoc]

theorem hdmxPass_eq_none (font : Font) (data : List Nat)
    (h : (OpenTypeHDMX.Parse font data).1 ≠ Outcome.success) :
    hdmxPass font data = none := by
  simp only [hdmxPass, OpenTypeHDMX.ShouldSerialize, tableShouldSerialize]
  rw [if_neg]
  simp only [Bool.and_eq_true, decide_eq_true_eq]
  intro hc
  exact h hc.1

def fontW : Font := { head := some ⟨0x14⟩, maxp := some ⟨0⟩, glyf := true }

def dataW : List Nat := [0, 0, 0, 1, 0, 0, 0, 2, 7, 5]

def tW : OpenTypeHDMX := ⟨0, 2, 0, [⟨7, 5, []⟩]⟩

def fontC1 : Font := { head := some ⟨0x04⟩, maxp := some ⟨0⟩, glyf := true }

def fontC1b : Font := { head := some ⟨0x03⟩, maxp := some ⟨0⟩, glyf := true }

def dataC2 : List Nat := [0, 0, 0, 2, 0, 0, 0, 2, 5, 1, 5, 1]

def dataC5 : List Nat := [0, 0, 0, 1, 0, 0, 0, 6]

def fontC6 : Font := { head := some ⟨0x14⟩, maxp := some ⟨3⟩, glyf := true }

def dataC6 : List Nat := [0, 0, 0, 1, 0, 0, 0, 4]

def fontNoHead : Font := { head := none, maxp := some ⟨0⟩, glyf := false }

def heap0 : Heap := ⟨[0]⟩

def fontA : FontH := ⟨some 0, false⟩

def fontB0 : FontH := ⟨none, false⟩

/-- C1 counterexample: with `head.flags = 0x04` (bit 2 set, bit 4 clear) the
claim demands Drop before the header body is read, but Parse proceeds past the
flags gate and returns Error on the empty body — the code drops only when
`flags & 0x14 == 0`, i.e. when BOTH bits are clear. -/
theorem hdmx_flags_claim_counterexample :
    (0x04 &&& 0x14 : Nat) ≠ 0 ∧ (0x04 &&& 0x10 : Nat) = 0 ∧
    fontC1.head = some ⟨0x04⟩ ∧
    (OpenTypeHDMX.Parse fontC1 []).1 = Outcome.error ∧
    (OpenTypeHDMX.Parse fontC1 []).1 ≠ Outcome.drop := by
  decide

/-- C1 (amended): with head and maxp present, Parse returns Drop — before the
header body is read, so the result is that of the empty input — exactly when
`head.flags & 0x14 == 0`, i.e. when neither bit 2 nor bit 4 is set; a single
set bit of the mask lets parsing proceed. -/
theorem hdmx_flags_both_clear_drop (font : Font) (head : HeadTable)
    (maxp : MaxpTable) (data : List Nat)
    (hh : font.head = some head) (hm : font.maxp = some maxp)
    (hf : head.flags &&& 0x14 = 0) :
    (OpenTypeHDMX.Parse font data).1 = Outcome.drop ∧
      OpenTypeHDMX.Parse font data = OpenTypeHDMX.Parse font [] := by
  simp only [OpenTypeHDMX.Parse, hh, hm]
  simp only [if_pos hf]
  exact ⟨trivial, trivial⟩

/-- C1 witness. -/
theorem hdmx_flags_both_clear_drop_witness :
    (OpenTypeHDMX.Parse fontC1b [9]).1 = Outcome.drop ∧
      OpenTypeHDMX.Parse fontC1b [9] = OpenTypeHDMX.Parse fontC1b [] :=
  hdmx_flags_both_clear_drop fontC1b ⟨0x03⟩ ⟨0⟩ [9] rfl rfl (by decide)

/-- C2 counterexample: a Drop at the second record leaves the first, already
decoded, record in `records` — the sequence is not left empty on failure. -/
theorem hdmx_records_cleared_counterexample :
    (OpenTypeHDMX.Parse fontW dataC2).1 = Outcome.drop ∧
    (OpenTypeHDMX.Parse fontW dataC2).2.records = [⟨5, 1, []⟩] ∧
    (OpenTypeHDMX.Parse fontW dataC2).2.records ≠ [] := by
  decide

/-- C2 (amended): on any failed Parse (Drop or Error) the outcome is
authoritative — the font-level pass never emits the table — although the
`records` field may retain the records decoded before the failure. -/
theorem hdmx_failure_outcome_authoritative (font : Font) (data : List Nat)
    (h : (OpenTypeHDMX.Parse font data).1 ≠ Outcome.success) :
    hdmxPass font data = none :=
  hdmxPass_eq_none font data h

/-- C2 witness. -/
theorem hdmx_failure_outcome_authoritative_witness :
    hdmxPass fontW [] = none :=
  hdmx_failure_outcome_authoritative fontW [] (by decide)

/-- C3: for every byte string accepted by Parse, serializing the resulting
table and re-parsing the emitted bytes with the same prerequisites succeeds
and yields the identical table — in particular identical `records`. -/
theorem hdmx_parse_serialize_roundtrip (font : Font) (data : List Nat)
    (t : OpenTypeHDMX) (hb : ByteList data)
    (h : OpenTypeHDMX.Parse font data = (Outcome.success, t)) :
    ∃ out, t.Serialize = some out ∧
      OpenTypeHDMX.Parse font out = (Outcome.success, t) := by
  obtain ⟨head, maxp, num_recs, l1, l2, l3, hh, hm, hf, h1, h2, hn, h3, hv,
    hsz, hpdef, hple, hlen, hsort, hws, hpr⟩ := Parse_success_inv font data t h
  obtain ⟨hL1, hL2, hS0, hS31⟩ := Parse_success_bounds font data t hb h
  refine ⟨_, Serialize_eq_encode t (by omega), ?_⟩
  have ht : t = ⟨0, t.size_device_record, ((t.pad_len.toNat : Nat) : Int), t.records⟩ := by
    have hv1 : t.version = 0 := hv
    have hp1 : ((t.pad_len.toNat : Nat) : Int) = t.pad_len := by omega
    calc t = ⟨t.version, t.size_device_record, t.pad_len, t.records⟩ := rfl
      _ = ⟨0, t.size_device_record, ((t.pad_len.toNat : Nat) : Int), t.records⟩ := by
          rw [hv1, hp1]
  have hpe := Parse_encode font head maxp t.records t.pad_len.toNat
    t.size_device_record hh hm hf (by omega) (by omega) hws hsort (by omega)
    (by omega) hS31
  rw [hv, hpe, Prod.mk.injEq]
  exact ⟨rfl, ht.symm⟩

/-- C3 witness. -/
theorem hdmx_parse_serialize_roundtrip_witness :
    ∃ out, tW.Serialize = some out ∧
      OpenTypeHDMX.Parse fontW out = (Outcome.success, tW) :=
  hdmx_parse_serialize_roundtrip fontW dataW tW (by decide) (by decide)

/-- C4: every successfully parsed table's records are strictly increasing by
`pixel_size`, and a record sequence violating this ordering (well-formed
header and widths) makes Parse return Drop. -/
theorem hdmx_records_sorted :
    (∀ (font : Font) (data : List Nat) (t : OpenTypeHDMX),
        OpenTypeHDMX.Parse font data = (Outcome.success, t) →
        List.Chain' (fun a b => a.pixel_size < b.pixel_size) t.records) ∧
    (∀ (font : Font) (head : HeadTable) (maxp : MaxpTable)
        (rs : List OpenTypeHDMXDeviceRecord) (pad : Nat) (sdr : Int),
        font.head = some head → font.maxp = some maxp →
        ¬head.flags &&& 0x14 = 0 → rs.length < 32768 →
        (∀ r ∈ rs, r.widths.length = maxp.num_glyphs) →
        ¬List.Chain' (fun a b => a.pixel_size < b.pixel_size) rs →
        sdr = (maxp.num_glyphs : Int) + 2 + (pad : Int) → pad ≤ 3 →
        sdr < 2147483648 →
        (OpenTypeHDMX.Parse font
          (u16Bytes 0 ++ (s16Bytes (rs.length : Int) ++
            (s32Bytes sdr ++ encodeRecs pad rs)))).1 = Outcome.drop) := by
  constructor
  · intro font data t h
    obtain ⟨head, maxp, num_recs, l1, l2, l3, hh, hm, hf, h1, h2, hn, h3, hv,
      hsz, hpdef, hple, hlen, hsort, hws, hpr⟩ := Parse_success_inv font data t h
    exact (sortedFrom_true_iff t.records 0).mp hsort
  · intro font head maxp rs pad sdr hh hm hf hlen2 hw hchain hsdr hpad h31
    have hs : sortedFrom true 0 rs = false := by
      rcases Bool.eq_false_or_eq_true (sortedFrom true 0 rs) with hx | hx
      · exact absurd ((sortedFrom_true_iff rs 0).mp hx) hchain
      · exact hx
    exact Parse_encode_unsorted font head maxp rs pad sdr hh hm hf hlen2 hw hs
      hsdr hpad h31

/-- C4 witness. -/
theorem hdmx_records_sorted_witness :
    List.Chain' (fun a b => a.pixel_size < b.pixel_size) tW.records ∧
    (OpenTypeHDMX.Parse fontW
      (u16Bytes 0 ++ (s16Bytes (([⟨12, 1, []⟩, ⟨10, 1, []⟩] :
          List OpenTypeHDMXDeviceRecord).length : Int) ++
        (s32Bytes 2 ++ encodeRecs 0 [⟨12, 1, []⟩, ⟨10, 1, []⟩])))).1 =
      Outcome.drop := by
  constructor
  · exact hdmx_records_sorted.1 fontW dataW tW (by decide)
  · exact hdmx_records_sorted.2 fontW ⟨0x14⟩ ⟨0⟩ [⟨12, 1, []⟩, ⟨10, 1, []⟩] 0 2
      rfl rfl (by decide) (by decide) (by decide)
      (by simp [List.chain'_cons]) (by decide) (by decide) (by decide)

/-- C5: once the header has been decoded and the record size accepted, the
derived `pad_len` exceeding 3 forces the Error outcome, and on every non-Error
outcome the stored `pad_len` equals the computed difference and lies in 0..3. -/
theorem hdmx_pad_len_range (font : Font) (data : List Nat) (head : HeadTable)
    (maxp : MaxpTable) (num_recs sdr : Int) (l1 l2 l3 : List Nat)
    (hh : font.head = some head) (hm : font.maxp = some maxp)
    (hf : ¬head.flags &&& 0x14 = 0)
    (h1 : readU16 data = some (0, l1))
    (h2 : readS16 l1 = some (num_recs, l2)) (hn : 0 < num_recs)
    (h3 : readS32 l2 = some (sdr, l3))
    (hs : (maxp.num_glyphs : Int) + 2 ≤ sdr) :
    (3 < sdr - ((maxp.num_glyphs : Int) + 2) →
      (OpenTypeHDMX.Parse font data).1 = Outcome.error) ∧
    ((OpenTypeHDMX.Parse font data).1 ≠ Outcome.error →
      0 ≤ (OpenTypeHDMX.Parse font data).2.pad_len ∧
      (OpenTypeHDMX.Parse font data).2.pad_len ≤ 3 ∧
      (OpenTypeHDMX.Parse font data).2.pad_len =
        sdr - ((maxp.num_glyphs : Int) + 2)) := by
  simp only [OpenTypeHDMX.Parse, hh, hm]
  rw [if_neg hf, h1]
  simp only
  rw [h2]
  simp only
  rw [h3]
  simp only
  rw [if_neg (by omega : ¬(0 : Nat) ≠ 0)]
  rw [if_neg (by omega : ¬num_recs ≤ 0)]
  rw [if_neg (by omega : ¬sdr < (maxp.num_glyphs : Int) + 2)]
  by_cases hp : 3 < sdr - ((maxp.num_glyphs : Int) + 2)
  · rw [if_pos hp]
    constructor
    · intro _
      rfl
    · intro hne
      exact absurd rfl hne
  · rw [if_neg hp]
    constructor
    · intro hc
      omega
    · intro _
      refine ⟨?_, ?_, rfl⟩
      · show (0 : Int) ≤ sdr - ((maxp.num_glyphs : Int) + 2)
        omega
      · show sdr - ((maxp.num_glyphs : Int) + 2) ≤ 3
        omega

/-- C5 witness. -/
theorem hdmx_pad_len_range_witness :
    (3 < (6 : Int) - (((0 : Nat) : Int) + 2) →
      (OpenTypeHDMX.Parse fontW dataC5).1 = Outcome.error) ∧
    ((OpenTypeHDMX.Parse fontW dataC5).1 ≠ Outcome.error →
      0 ≤ (OpenTypeHDMX.Parse fontW dataC5).2.pad_len ∧
      (OpenTypeHDMX.Parse fontW dataC5).2.pad_len ≤ 3 ∧
      (OpenTypeHDMX.Parse fontW dataC5).2.pad_len =
        6 - (((0 : Nat) : Int) + 2)) :=
  hdmx_pad_len_range fontW dataC5 ⟨0x14⟩ ⟨0⟩ 1 6 [0, 1, 0, 0, 0, 6] [0, 0, 0, 6]
    [] rfl rfl (by decide) (by decide) (by decide) (by decide) (by decide)
    (by decide)

/-- C6: once the header fields have been decoded, a `size_device_record`
smaller than `num_glyphs + 2` makes Parse return Drop, and the font-level pass
emits nothing for the table. -/
theorem hdmx_undersized_device_record_drop (font : Font) (data : List Nat)
    (head : HeadTable) (maxp : MaxpTable) (v : Nat) (num_recs sdr : Int)
    (l1 l2 l3 : List Nat)
    (hh : font.head = some head) (hm : font.maxp = some maxp)
    (hf : ¬head.flags &&& 0x14 = 0)
    (h1 : readU16 data = some (v, l1))
    (h2 : readS16 l1 = some (num_recs, l2))
    (h3 : readS32 l2 = some (sdr, l3))
    (hs : sdr < (maxp.num_glyphs : Int) + 2) :
    (OpenTypeHDMX.Parse font data).1 = Outcome.drop ∧
      hdmxPass font data = none := by
  have hd : (OpenTypeHDMX.Parse font data).1 = Outcome.drop := by
    simp only [OpenTypeHDMX.Parse, hh, hm]
    rw [if_neg hf, h1]
    simp only
    rw [h2]
    simp only
    rw [h3]
    simp only
    by_cases hv : v ≠ 0
    · rw [if_pos hv]
    · rw [if_neg hv]
      by_cases hn : num_recs ≤ 0
      · rw [if_pos hn]
      · rw [if_neg hn]
        rw [if_pos hs]
  refine ⟨hd, hdmxPass_eq_none font data ?_⟩
  rw [hd]
  intro hc
  cases hc

/-- C6 witness. -/
theorem hdmx_undersized_device_record_drop_witness :
    (OpenTypeHDMX.Parse fontC6 dataC6).1 = Outcome.drop ∧
      hdmxPass fontC6 dataC6 = none :=
  hdmx_undersized_device_record_drop fontC6 dataC6 ⟨0x14⟩ ⟨3⟩ 0 1 4
    [0, 1, 0, 0, 0, 4] [0, 0, 0, 4] [] rfl rfl (by decide) (by decide)
    (by decide) (by decide) (by decide)

/-- C7: with the `head` or the `maxp` table absent from the Font, Parse returns
Error, and — never having read a byte of the table data — returns the same
result as on the empty input. -/
theorem hdmx_missing_prereq_error (font : Font) (data : List Nat)
    (h : font.head = none ∨ font.maxp = none) :
    (OpenTypeHDMX.Parse font data).1 = Outcome.error ∧
      OpenTypeHDMX.Parse font data = OpenTypeHDMX.Parse font [] := by
  rcases h with h | h
  · simp only [OpenTypeHDMX.Parse, h]
    exact ⟨trivial, trivial⟩
  · cases hh : font.head with
    | none =>
        simp only [OpenTypeHDMX.Parse, hh]
        exact ⟨trivial, trivial⟩
    | some head =>
        simp only [OpenTypeHDMX.Parse, hh, h]
        exact ⟨trivial, trivial⟩

/-- C7 witness. -/
theorem hdmx_missing_prereq_error_witness :
    (OpenTypeHDMX.Parse fontNoHead [1, 2, 3]).1 = Outcome.error ∧
      OpenTypeHDMX.Parse fontNoHead [1, 2, 3] =
        OpenTypeHDMX.Parse fontNoHead [] :=
  hdmx_missing_prereq_error fontNoHead [1, 2, 3] (Or.inl rfl)

/-- C8: ShouldSerialize holds exactly when the Parse outcome was success and
the Font has a glyf table; for a CFF-outline Font (no glyf) it is false even
after a successful Parse. -/
theorem hdmx_should_serialize_iff (font : Font) (data : List Nat) :
    OpenTypeHDMX.ShouldSerialize
        (decide ((OpenTypeHDMX.Parse font data).1 = Outcome.success)) font =
        true ↔
      ((OpenTypeHDMX.Parse font data).1 = Outcome.success ∧
        font.glyf = true) := by
  simp [OpenTypeHDMX.ShouldSerialize, tableShouldSerialize]

/-- C9 counterexample: after `fontB` adopts `fontA`'s instance via
`ots_hdmx_reuse`, invoking `ots_hdmx_free` on `fontB` deletes the shared
instance out from under `fontA` — the function is an unconditional delete. -/
theorem hdmx_free_shared_counterexample :
    fontA.hdmx = some 0 ∧ (0 : Nat) ∈ heap0.live ∧
    (ots_hdmx_reuse fontB0 fontA).hdmx = some 0 ∧
    (ots_hdmx_free heap0 (ots_hdmx_reuse fontB0 fontA)).live = [] := by
  decide

/-- C9 (amended): `ots_hdmx_free` itself deletes unconditionally; the shared
instance survives only because `ots_hdmx_reuse` marks the adopting Font with
`hdmx_reused = true` and the release path skips the free call for reused
holders. -/
theorem hdmx_reuse_release_discipline (heap : Heap) (fA fB : FontH) (p : Nat)
    (hp : fA.hdmx = some p) (hl : p ∈ heap.live) :
    (ots_hdmx_reuse fB fA).hdmx = fA.hdmx ∧
    (ots_hdmx_reuse fB fA).hdmx_reused = true ∧
    p ∈ (fontRelease heap (ots_hdmx_reuse fB fA)).live := by
  refine ⟨rfl, rfl, ?_⟩
  simp only [fontRelease, ots_hdmx_reuse]
  exact hl

/-- C9 witness. -/
theorem hdmx_reuse_release_discipline_witness :
    (ots_hdmx_reuse fontB0 fontA).hdmx = fontA.hdmx ∧
    (ots_hdmx_reuse fontB0 fontA).hdmx_reused = true ∧
    (0 : Nat) ∈ (fontRelease heap0 (ots_hdmx_reuse fontB0 fontA)).live :=
  hdmx_reuse_release_discipline heap0 fontA fontB0 0 rfl (by decide)

/-- C10: every successfully parsed table has between 1 and 32767 records, so
Serialize's record-count guard never fires on it and Serialize succeeds. -/
theorem hdmx_num_recs_serialize_guard (font : Font) (data : List Nat)
    (t : OpenTypeHDMX) (hb : ByteList data)
    (h : OpenTypeHDMX.Parse font data = (Outcome.success, t)) :
    1 ≤ t.records.length ∧ t.records.length ≤ 32767 ∧
      t.Serialize ≠ none := by
  obtain ⟨hL1, hL2, hS0, hS31⟩ := Parse_success_bounds font data t hb h
  refine ⟨hL1, hL2, ?_⟩
  rw [Serialize_eq_encode t hL2]
  simp

/-- C10 witness. -/
theorem hdmx_num_recs_serialize_guard_witness :
    1 ≤ tW.records.length ∧ tW.records.length ≤ 32767 ∧
      tW.Serialize ≠ none :=
  hdmx_num_recs_serialize_guard fontW dataW tW (by decide) (by decide)
